import Mathlib

/-!
A shallow embedding of the `AIGenerator` class of `backend/ai_generator.py`
(the multi-round tool-orchestrated generation loop of the RAG chatbot).

Modelling conventions:
* Python content blocks are duck-typed objects; `type?` and `text?` model the
  presence or absence of the corresponding attribute (`none` means the
  attribute is missing, so reading it raises `AttributeError`).
* The Anthropic client is modelled as a stub: a function from the 0-based
  index of the `client.messages.create` call to either a response or a raised
  exception (`Except.error msg` models a raised exception whose `str` is
  `msg`).
* A raised Python exception that is NOT caught by the code is modelled as an
  `Except.error` outcome of the embedded function; a caught exception is
  turned into the string the code builds from it, exactly as the source does.
* Every `client.messages.create` call is recorded in a trace (`Trace.calls`),
  together with the round counter value at the start of each tool-execution
  batch (`Trace.starts`) and the result list of each completed batch
  (`Trace.batchResults`).
* The `while` loop of `_handle_sequential_tool_execution` is embedded with a
  structural fuel parameter; the caller passes `max_tool_rounds` which is an
  upper bound on the number of iterations (the loop guard requires
  `round_count < max_tool_rounds` and `round_count` increases by one per
  iteration), so the fuel never runs out on the path the source takes.
-/

namespace AIGen

/-- A content block of a model response. `type?` and `text?` are `none` when
the Python object lacks the corresponding attribute. `id`, `name` and `input`
are read by the source only after checking `type == "tool_use"`, where the
SDK guarantees their presence, so they are total fields here. -/
structure ContentBlock where
  type? : Option String := none
  text? : Option String := none
  id : String := ""
  name : String := ""
  input : List (String × String) := []
deriving Repr, DecidableEq

/-- A model response: `stop_reason` and the list of content blocks. -/
structure ModelResponse where
  stop_reason : String
  content : List ContentBlock
deriving Repr, DecidableEq

/-- A tool result dict as built by `_execute_tool_round`; `is_error = true`
models the presence of the `"is_error": True` key. -/
structure ToolResult where
  tool_use_id : String
  content : String
  is_error : Bool
deriving Repr, DecidableEq

/-- The content slot of a conversation message: a plain string, the verbatim
content blocks of a model response (assistant tool-request turn), or a list
of tool result dicts (user tool-results turn). -/
inductive MsgContent where
  | ofString (s : String)
  | ofBlocks (bs : List ContentBlock)
  | ofResults (rs : List ToolResult)
deriving Repr, DecidableEq

/-- One entry of the `messages` list. -/
structure Message where
  role : String
  content : MsgContent
deriving Repr, DecidableEq

/-- A tool definition as passed in the `tools` API parameter (opaque to the
engine, which only forwards it). -/
structure ToolDef where
  name : String
  description : String := ""
deriving Repr, DecidableEq

/-- The keyword arguments of one `client.messages.create` call.
`tools = none` models the absence of the `"tools"` key (so `some []` is a
present key holding an empty list, as produced by
`base_params.get("tools", [])`); likewise `tool_choice`. -/
structure ApiCall where
  model : String
  temperature : Nat
  max_tokens : Nat
  messages : List Message
  system : String
  tools : Option (List ToolDef)
  tool_choice : Option String
deriving Repr, DecidableEq

/-- The tool manager: `execute_tool name kwargs` returns the result string,
or `.error msg` when the Python call raises an exception whose `str` is
`msg`. -/
abbrev ToolManager : Type := String → List (String × String) → Except String String

/-- A stub language-model client: the behavior of the n-th
`client.messages.create` call (0-based). `.error msg` models the call
raising an exception whose `str` is `msg`. -/
abbrev Client : Type := Nat → Except String ModelResponse

/-- The execution trace of one `generate_response` invocation:
`calls` records every `client.messages.create` call in order;
`starts` records the value of `round_count` at the start of each
tool-execution batch (just before the `round_count += 1` increment);
`batchResults` records the result list of each batch that ran to
completion. -/
structure Trace where
  calls : List ApiCall
  starts : List Nat
  batchResults : List (List ToolResult)
deriving Repr, DecidableEq

/-- The `AIGenerator` configuration (the api_key only feeds the client
object, which is passed explicitly to the embedded methods). -/
structure AIGenerator where
  model : String
  max_tool_rounds : Nat := 2
deriving Repr, DecidableEq

/-- The static SYSTEM_PROMPT class constant, verbatim. -/
def SYSTEM_PROMPT : String :=
  " You are an AI assistant specialized in course materials and educational content with access to comprehensive search and outline tools for course information.\n\nTool Usage:\n- **Content search tool**: Use for questions about specific course content or detailed educational materials\n- **Course outline tool**: Use for questions about course structure, lesson lists, or course overviews\n- **Sequential tool calls**: You can use multiple tools across multiple rounds to gather comprehensive information\n- **Tool call strategy**: Use tools iteratively to build complete answers (e.g., first get course outline, then search specific content)\n- **Course name resolution**: When users mention abbreviated course names (like \"MCP\", \"RAG course\", etc.), first use the course outline tool to find the full course title, then use the search tool with the complete name\n- Synthesize tool results into accurate, fact-based responses\n- If tools yield no results, state this clearly without offering alternatives\n\nResponse Protocol:\n- **General knowledge questions**: Answer using existing knowledge without using tools\n- **Course-specific questions**: Use appropriate tools first, then answer\n- **Complex queries**: Break down into multiple tool calls as needed\n- **Course outline questions**: Use outline tool to return course title, course link, and complete lesson list with numbers and titles\n- **Abbreviated course names**: When users use short names like \"MCP course\", \"RAG course\", etc., ALWAYS use the course outline tool first to find the full course title, then use content search tool with the complete name\n- **No meta-commentary**:\n - Provide direct answers only — no reasoning process, search explanations, or question-type analysis\n - Do not mention \"based on the search results\" or \"using the outline tool\"\n\n\nAll responses must be:\n1. **Brief, Concise and focused** - Get to the point quickly\n2. **Educational** - Maintain instructional value\n3. **Clear** - Use accessible language\n4. **Example-supported** - Include relevant examples when they aid understanding\nProvide only the direct answer to what was asked.\n"

/-- The fixed failure string returned when a tool batch produces zero
results. -/
def toolFailMsg : String := "Tool execution failed. Please try again."

/-- The user turn appended before the forced finalization call. -/
def finalSynthesisPrompt : String :=
  "Please provide a comprehensive answer based on the search results you found above."

/-- The fallback returned by the direct (no-tool) path of
`generate_response` when the response content is empty. -/
def noResponseFallback : String := "No response generated"

/-- The fallback of `_extract_response_text` when the content is non-empty
but holds no usable textual item. -/
def extractScanFallback : String :=
  "I was able to search for information but encountered an issue generating the final response. Please try rephrasing your question."

/-- The fallback of `_extract_response_text` when the content is empty. -/
def extractEmptyFallback : String :=
  "I encountered an issue generating a response. Please try rephrasing your question."

/-- The error string returned when the model call of a tool round raises. -/
def roundErrorMsg (n : Nat) (e : String) : String :=
  "Error in tool execution round " ++ toString n ++ ": " ++ e

/-- The error string returned when the finalization model call raises. -/
def finalErrorMsg (e : String) : String :=
  "Error in final response generation: " ++ e

/-- Python truthiness of the optional tools list (`if tools:`): `None` and
`[]` are falsy. -/
def toolsTruthy : Option (List ToolDef) → Bool
  | some (_ :: _) => true
  | _ => false

/-- Python truthiness of the optional history string: `None` and `""` are
falsy. -/
def historyTruthy : Option String → Bool
  | some s => s != ""
  | none => false

/-- Builds the kwargs dict of one API call: the spread of `base_params`
(model, temperature 0, max_tokens 800) plus the per-call entries. -/
def mkCall (g : AIGenerator) (messages : List Message) (system : String)
    (tools : Option (List ToolDef)) (tool_choice : Option String) : ApiCall :=
  ⟨g.model, 0, 800, messages, system, tools, tool_choice⟩

/-- The scan of `_extract_response_text` over the content list: return the
first block that has both a `text` and a `type` attribute with
`type != "tool_use"`, else the first block that has `text` but no `type`
attribute and whose stripped text is non-empty; after the loop, the
non-empty-content fallback. -/
def extractScan : List ContentBlock → String
  | [] => extractScanFallback
  | b :: rest =>
      match b.text?, b.type? with
      | some t, some ty => if ty != "tool_use" then t else extractScan rest
      | some t, none => if t.trim != "" then t else extractScan rest
      | none, _ => extractScan rest

/-- `_extract_response_text`: safely extract text from an API response
(total; never raises). -/
def _extract_response_text (response : ModelResponse) : String :=
  if response.content.isEmpty then extractEmptyFallback
  else extractScan response.content

/-- One `execute_tool` dispatch wrapped in the try/except of
`_execute_tool_round`: a raised exception becomes an `is_error` result with
the diagnostic string; the `tool_use_id` is copied from the request in both
branches. -/
def resultFor (tm : ToolManager) (b : ContentBlock) : ToolResult :=
  match tm b.name b.input with
  | .ok r => ⟨b.id, r, false⟩
  | .error e => ⟨b.id, "Tool execution error: " ++ e, true⟩

/-- The `for content_block in response.content` loop of
`_execute_tool_round`, with accumulator. Reading `content_block.type` on a
block that lacks the attribute raises `AttributeError`, which nothing in the
source catches. -/
def execRoundGo (tm : ToolManager) :
    List ContentBlock → List ToolResult → Except String (List ToolResult)
  | [], acc => .ok acc
  | b :: rest, acc =>
      match b.type? with
      | none => .error "AttributeError: type"
      | some ty =>
          if ty == "tool_use" then execRoundGo tm rest (acc ++ [resultFor tm b])
          else execRoundGo tm rest acc

/-- `_execute_tool_round`: execute all tool calls of a single round, in the
order the model emitted them. -/
def _execute_tool_round (response : ModelResponse) (tm : ToolManager) :
    Except String (List ToolResult) :=
  execRoundGo tm response.content []

/-- The code after the `while` loop of `_handle_sequential_tool_execution`:
if the loop exited at the round cap while the model still requests tools,
append one user turn with the synthesis prompt and make one final call
whose parameters carry no `tools` key (and no `tool_choice`); a raised
client exception is caught and formatted. Then extract the final text. -/
def finishPhase (g : AIGenerator) (client : Client) (system : String)
    (messages : List Message) (current : ModelResponse) (round_count : Nat)
    (tr : Trace) : Except String String × Trace :=
  if current.stop_reason == "tool_use" && g.max_tool_rounds ≤ round_count then
    let final_messages := messages ++ [⟨"user", .ofString finalSynthesisPrompt⟩]
    let final_params := mkCall g final_messages system none none
    let tr1 : Trace := ⟨tr.calls ++ [final_params], tr.starts, tr.batchResults⟩
    match client tr.calls.length with
    | .error e => (.ok (finalErrorMsg e), tr1)
    | .ok resp => (.ok (_extract_response_text resp), tr1)
  else
    (.ok (_extract_response_text current), tr)

/-- The `while` loop of `_handle_sequential_tool_execution`. The guard is
exactly the source guard
`current.stop_reason == "tool_use" and round_count < max_tool_rounds and tool_manager`;
`fuel` is a structural bound on the remaining iterations, instantiated with
`max_tool_rounds` by the caller: since the guard forces
`round_count < max_tool_rounds` and `round_count` grows by one per
iteration, `fuel = 0` implies the guard is false whenever
`max_tool_rounds ≤ fuel + round_count` holds, so the fuel-exhausted branch
coincides with the normal loop exit on every reachable configuration. -/
def seqLoop (g : AIGenerator) (client : Client) (tool_manager : Option ToolManager)
    (system : String) (apiTools : Option (List ToolDef)) :
    Nat → List Message → ModelResponse → Nat → Trace →
      Except String String × Trace
  | 0, messages, current, round_count, tr =>
      finishPhase g client system messages current round_count tr
  | fuel + 1, messages, current, round_count, tr =>
      match tool_manager with
      | none => finishPhase g client system messages current round_count tr
      | some tm =>
        if current.stop_reason == "tool_use" && round_count < g.max_tool_rounds then
          let round_count1 := round_count + 1
          let messages1 := messages ++ [⟨"assistant", .ofBlocks current.content⟩]
          let tr1 : Trace := ⟨tr.calls, tr.starts ++ [round_count], tr.batchResults⟩
          match _execute_tool_round current tm with
          | .error e => (.error e, tr1)
          | .ok tool_results =>
            let tr2 : Trace := ⟨tr1.calls, tr1.starts, tr1.batchResults ++ [tool_results]⟩
            if tool_results.isEmpty then
              (.ok toolFailMsg, tr2)
            else
              let messages2 := messages1 ++ [⟨"user", .ofResults tool_results⟩]
              let next_params :=
                mkCall g messages2 system (some (apiTools.getD [])) (some "auto")
              let tr3 : Trace := ⟨tr2.calls ++ [next_params], tr2.starts, tr2.batchResults⟩
              match client tr2.calls.length with
              | .error e => (.ok (roundErrorMsg round_count1 e), tr3)
              | .ok resp =>
                  seqLoop g client tool_manager system apiTools fuel
                    messages2 resp round_count1 tr3
        else
          finishPhase g client system messages current round_count tr

/-- `_handle_sequential_tool_execution`: seed the loop with the messages of
the initial call, the initial tool-use response and `round_count = 0`. -/
def _handle_sequential_tool_execution (g : AIGenerator) (client : Client)
    (initial_response : ModelResponse) (base_params : ApiCall)
    (tool_manager : Option ToolManager) (tr : Trace) :
    Except String String × Trace :=
  seqLoop g client tool_manager base_params.system base_params.tools
    g.max_tool_rounds base_params.messages initial_response 0 tr

/-- `generate_response`. The initial `client.messages.create` call is NOT
wrapped in try/except in the source, so a client exception there propagates
to the caller (modelled as `.error`); likewise the direct-path read
`response.content[0].text` raises when the first block lacks a `text`
attribute. -/
def generate_response (g : AIGenerator) (client : Client) (query : String)
    (conversation_history : Option String) (tools : Option (List ToolDef))
    (tool_manager : Option ToolManager) : Except String String × Trace :=
  let system_content :=
    if historyTruthy conversation_history then
      SYSTEM_PROMPT ++ "\n\nPrevious conversation:\n" ++ conversation_history.getD ""
    else SYSTEM_PROMPT
  let api_params :=
    mkCall g [⟨"user", .ofString query⟩] system_content
      (if toolsTruthy tools then tools else none)
      (if toolsTruthy tools then some "auto" else none)
  let tr0 : Trace := ⟨[api_params], [], []⟩
  match client 0 with
  | .error e => (.error e, tr0)
  | .ok response =>
    if response.stop_reason == "tool_use" && tool_manager.isSome then
      _handle_sequential_tool_execution g client response api_params tool_manager tr0
    else
      match response.content with
      | [] => (.ok noResponseFallback, tr0)
      | b :: _ =>
          match b.text? with
          | some t => (.ok t, tr0)
          | none => (.error "AttributeError: text", tr0)

/-- The tool-invocation requests of a response: the content blocks whose
`type` attribute equals `"tool_use"`. -/
def toolUses (bs : List ContentBlock) : List ContentBlock :=
  bs.filter (fun b => b.type? == some "tool_use")

/-- The call ids of the tool-invocation requests of an assistant turn. -/
def requestIds (bs : List ContentBlock) : List String :=
  (toolUses bs).map (fun b => b.id)

/-- The call ids carried by a batch of tool results. -/
def resultIds (rs : List ToolResult) : List String :=
  rs.map (fun r => r.tool_use_id)

/-- A content block that the scan of `_extract_response_text` accepts as a
genuine textual item. -/
def isTextualItem (b : ContentBlock) : Bool :=
  match b.text?, b.type? with
  | some _, some ty => ty != "tool_use"
  | some t, none => t.trim != ""
  | none, _ => false

/-- The text of the first genuine textual item of a content list, if any. -/
def firstTextual (bs : List ContentBlock) : Option String :=
  (bs.find? isTextualItem).bind (fun b => b.text?)

/-- Whether a message is a user turn bundling tool results. -/
def isResultsTurn (m : Message) : Bool :=
  match m.content with
  | .ofResults _ => true
  | _ => false

/-- The alignment constraint between two adjacent messages: whenever the
second bundles tool results, it is a user turn, the first is an assistant
turn of content blocks, and the call ids of the results equal the tool-use
ids of those blocks, in order. -/
def alignedPair (m1 m2 : Message) : Bool :=
  match m2.content with
  | .ofResults rs =>
      m2.role == "user" && m1.role == "assistant" &&
        (match m1.content with
         | .ofBlocks bs => resultIds rs == requestIds bs
         | _ => false)
  | _ => true

/-- Invariant of every messages list the engine builds: the first message
never bundles tool results, and each adjacent pair is aligned. -/
def AlignedMsgs (ms : List Message) : Prop :=
  (∀ h0 : 0 < ms.length, isResultsTurn (ms.get ⟨0, h0⟩) = false) ∧
  List.Chain' (fun a b => alignedPair a b = true) ms

/-- Sample generator with the default round budget. -/
def sampleGen : AIGenerator := ⟨"claude-sonnet", 2⟩

/-- Sample generator with a budget of one round. -/
def sampleGen1 : AIGenerator := ⟨"claude-sonnet", 1⟩

/-- A well-formed text block. -/
def sampleTextBlock (t : String) : ContentBlock := ⟨some "text", some t, "", "", []⟩

/-- A well-formed tool-use block (no `text` attribute, as in the SDK). -/
def sampleToolBlock (i n : String) : ContentBlock :=
  ⟨some "tool_use", none, i, n, [("query", "x")]⟩

/-- A tool manager that always succeeds. -/
def sampleTm : ToolManager := fun _ _ => .ok "tool output"

/-- A tool manager that raises on the tool named "bad". -/
def sampleTmFaulty : ToolManager := fun n _ =>
  if n == "bad" then .error "boom" else .ok "good output"

/-- A sample tools parameter. -/
def sampleToolDefs : List ToolDef := [⟨"search_course_content", "Search"⟩]

/-- Stub client: one tool request, then a natural stop (Scenario C). -/
def clientOneRound : Client := fun n =>
  if n == 0 then .ok ⟨"tool_use", [sampleToolBlock "t1" "search_course_content"]⟩
  else .ok ⟨"end_turn", [sampleTextBlock "final answer"]⟩

/-- Stub client: keeps requesting tools on the first two calls, then
answers (Scenario D when the budget is one round). -/
def clientAlwaysTools : Client := fun n =>
  if n ≤ 1 then .ok ⟨"tool_use", [sampleToolBlock "t1" "search_course_content"]⟩
  else .ok ⟨"end_turn", [sampleTextBlock "synthesized"]⟩

/-- Stub client that raises on every call. -/
def clientRaisesFirst : Client := fun _ => .error "network down"

/-- Stub client whose tool-use response contains no tool-use block, so the
batch yields zero results. -/
def clientEmptyBatch : Client := fun _ => .ok ⟨"tool_use", [sampleTextBlock "no requests"]⟩

/-- Stub client whose response requests a tool; with no tool manager the
direct path reads the missing `text` attribute. -/
def clientToolUseDirect : Client := fun _ => .ok ⟨"tool_use", [sampleToolBlock "t1" "s"]⟩

/-- Stub client for Scenario E: two tool requests, the first of which the
faulty manager raises on; then a natural stop. -/
def clientTwoToolsOneBad : Client := fun n =>
  if n == 0 then
    .ok ⟨"tool_use", [sampleToolBlock "t1" "bad", sampleToolBlock "t2" "good"]⟩
  else .ok ⟨"end_turn", [sampleTextBlock "done"]⟩

/-- Stub client that always answers directly with a text block. -/
def clientPlainText : Client := fun _ => .ok ⟨"end_turn", [sampleTextBlock "direct answer"]⟩

/-- The second model call of the one-round sample run (it carries the
assistant tool-request turn and the bundled tool-results turn). -/
def sampleSecondCall : ApiCall :=
  ((generate_response sampleGen clientOneRound "q" none (some sampleToolDefs)
      (some sampleTm)).2).calls.getD 1 (mkCall sampleGen [] "" none none)

theorem resultFor_id (tm : ToolManager) (b : ContentBlock) :
    (resultFor tm b).tool_use_id = b.id := by
  cases h : tm b.name b.input <;> simp [resultFor, h]

theorem execRoundGo_total (tm : ToolManager) (bs : List ContentBlock)
    (h : ∀ b ∈ bs, (b.type?).isSome) (acc : List ToolResult) :
    execRoundGo tm bs acc = .ok (acc ++ (toolUses bs).map (resultFor tm)) := by
  induction bs generalizing acc with
  | nil => simp [execRoundGo, toolUses]
  | cons b rest ih =>
    have hb : (b.type?).isSome := h b (by simp)
    have hr : ∀ x ∈ rest, (x.type?).isSome := fun x hx => h x (by simp [hx])
    obtain ⟨ty, hty⟩ : ∃ ty, b.type? = some ty := Option.isSome_iff_exists.mp hb
    by_cases hcase : ty = "tool_use"
    · subst hcase
      simp [execRoundGo, hty, toolUses, List.filter_cons, ih hr]
    · have hne : (ty == "tool_use") = false := by simpa using hcase
      have hne2 : (b.type? == some "tool_use") = false := by
        simp [hty, hcase]
      simp [execRoundGo, hty, hne, toolUses, List.filter_cons, hne2, ih hr]

theorem execRoundGo_ok (tm : ToolManager) (bs : List ContentBlock)
    (acc rs : List ToolResult) (h : execRoundGo tm bs acc = .ok rs) :
    rs = acc ++ (toolUses bs).map (resultFor tm) := by
  induction bs generalizing acc with
  | nil =>
    simp only [execRoundGo, Except.ok.injEq] at h
    simp [toolUses, h]
  | cons b rest ih =>
    match hty : b.type? with
    | none => simp [execRoundGo, hty] at h
    | some ty =>
      by_cases hcase : ty = "tool_use"
      · subst hcase
        simp only [execRoundGo, hty, beq_self_eq_true, if_true] at h
        have := ih _ h
        simp [toolUses, List.filter_cons, hty, this]
      · have hne : (ty == "tool_use") = false := by simpa using hcase
        simp only [execRoundGo, hty, hne, Bool.false_eq_true, if_false] at h
        have := ih _ h
        have hne2 : (b.type? == some "tool_use") = false := by simp [hty, hcase]
        simp [toolUses, List.filter_cons, hne2, this]

theorem execute_tool_round_total (response : ModelResponse) (tm : ToolManager)
    (h : ∀ b ∈ response.content, (b.type?).isSome) :
    _execute_tool_round response tm =
      .ok ((toolUses response.content).map (resultFor tm)) := by
  simpa [_execute_tool_round] using execRoundGo_total tm response.content h []

theorem execute_tool_round_ok (response : ModelResponse) (tm : ToolManager)
    (rs : List ToolResult) (h : _execute_tool_round response tm = .ok rs) :
    rs = (toolUses response.content).map (resultFor tm) := by
  simpa using execRoundGo_ok tm response.content [] rs h

theorem resultIds_map_resultFor (tm : ToolManager) (bs : List ContentBlock) :
    resultIds ((toolUses bs).map (resultFor tm)) = requestIds bs := by
  simp [resultIds, requestIds, resultFor_id]

theorem finishPhase_starts (g : AIGenerator) (client : Client) (system : String)
    (ms : List Message) (cur : ModelResponse) (rc : Nat) (tr : Trace) :
    ((finishPhase g client system ms cur rc tr).2).starts = tr.starts ∧
    ((finishPhase g client system ms cur rc tr).2).batchResults = tr.batchResults := by
  unfold finishPhase
  by_cases h : (cur.stop_reason == "tool_use" && g.max_tool_rounds ≤ rc : Bool)
  · simp only [h, if_true]
    cases client tr.calls.length <;> simp
  · simp only [Bool.not_eq_true] at h
    simp [h]

theorem finishPhase_calls (g : AIGenerator) (client : Client) (system : String)
    (ms : List Message) (cur : ModelResponse) (rc : Nat) (tr : Trace) :
    tr.calls.length ≤ ((finishPhase g client system ms cur rc tr).2).calls.length ∧
    ((finishPhase g client system ms cur rc tr).2).calls.length ≤ tr.calls.length + 1 := by
  unfold finishPhase
  by_cases h : (cur.stop_reason == "tool_use" && g.max_tool_rounds ≤ rc : Bool)
  · simp only [h, if_true]
    cases client tr.calls.length <;> simp
  · simp only [Bool.not_eq_true] at h
    simp [h]

theorem finishPhase_no_raise (g : AIGenerator) (client : Client) (system : String)
    (ms : List Message) (cur : ModelResponse) (rc : Nat) (tr : Trace) :
    ∃ s, (finishPhase g client system ms cur rc tr).1 = .ok s := by
  unfold finishPhase
  by_cases h : (cur.stop_reason == "tool_use" && g.max_tool_rounds ≤ rc : Bool)
  · simp only [h, if_true]
    cases client tr.calls.length <;> simp
  · simp only [Bool.not_eq_true] at h
    simp [h]

/-- When the current response does not request tools, the loop exits at once
and (since the finalization condition also fails) returns the extracted text
of the current response, leaving the trace unchanged. -/
theorem seqLoop_stop_ne (g : AIGenerator) (client : Client)
    (tmgr : Option ToolManager) (system : String) (apiTools : Option (List ToolDef))
    (fuel : Nat) (ms : List Message) (cur : ModelResponse) (rc : Nat) (tr : Trace)
    (h : cur.stop_reason ≠ "tool_use") :
    seqLoop g client tmgr system apiTools fuel ms cur rc tr =
      (.ok (_extract_response_text cur), tr) := by
  have hb : (cur.stop_reason == "tool_use") = false := by simpa using h
  cases fuel with
  | zero => simp [seqLoop, finishPhase, hb]
  | succ n =>
    cases tmgr with
    | none => simp [seqLoop, finishPhase, hb]
    | some tm => simp [seqLoop, finishPhase, hb]

theorem seqLoop_calls_mono (g : AIGenerator) (client : Client)
    (tmgr : Option ToolManager) (system : String) (apiTools : Option (List ToolDef))
    (fuel : Nat) (ms : List Message) (cur : ModelResponse) (rc : Nat) (tr : Trace) :
    tr.calls.length ≤
      ((seqLoop g client tmgr system apiTools fuel ms cur rc tr).2).calls.length := by
  induction fuel generalizing ms cur rc tr with
  | zero => exact (finishPhase_calls g client system ms cur rc tr).1
  | succ n ih =>
    cases tmgr with
    | none => exact (finishPhase_calls g client system ms cur rc tr).1
    | some tm =>
      by_cases hg : (cur.stop_reason == "tool_use" && decide (rc < g.max_tool_rounds) : Bool)
      · simp only [seqLoop, hg, if_true]
        cases hex : _execute_tool_round cur tm with
        | error e => simp
        | ok rs =>
          by_cases hre : rs.isEmpty
          · simp [hre]
          · simp only [hre, Bool.false_eq_true, if_false]
            cases hc : client tr.calls.length with
            | error e => simp
            | ok resp =>
              refine le_trans ?_ (ih _ _ _ _)
              simp
      · simp only [Bool.not_eq_true] at hg
        simp only [seqLoop, hg, Bool.false_eq_true, if_false]
        exact (finishPhase_calls g client system ms cur rc tr).1

theorem seqLoop_calls_le (g : AIGenerator) (client : Client)
    (tmgr : Option ToolManager) (system : String) (apiTools : Option (List ToolDef))
    (fuel : Nat) (ms : List Message) (cur : ModelResponse) (rc : Nat) (tr : Trace) :
    ((seqLoop g client tmgr system apiTools fuel ms cur rc tr).2).calls.length ≤
      tr.calls.length + (g.max_tool_rounds - rc) + 1 := by
  induction fuel generalizing ms cur rc tr with
  | zero =>
    simp only [seqLoop]
    have := (finishPhase_calls g client system ms cur rc tr).2
    omega
  | succ n ih =>
    cases tmgr with
    | none =>
      simp only [seqLoop]
      have := (finishPhase_calls g client system ms cur rc tr).2
      omega
    | some tm =>
      by_cases hg : (cur.stop_reason == "tool_use" && decide (rc < g.max_tool_rounds) : Bool)
      · have hrc : rc < g.max_tool_rounds := by
          have h2 := (Bool.and_eq_true _ _).mp hg
          exact of_decide_eq_true h2.2
        simp only [seqLoop, hg, if_true]
        cases hex : _execute_tool_round cur tm with
        | error e => simp only []; omega
        | ok rs =>
          by_cases hre : rs.isEmpty
          · simp only [hre, if_true]
            omega
          · simp only [hre, Bool.false_eq_true, if_false]
            cases hc : client tr.calls.length with
            | error e => simp
            | ok resp =>
              have hih := ih (ms ++ [⟨"assistant", .ofBlocks cur.content⟩] ++
                  [⟨"user", .ofResults rs⟩]) resp (rc + 1)
                  ⟨tr.calls ++ [mkCall g (ms ++ [⟨"assistant", .ofBlocks cur.content⟩] ++
                    [⟨"user", .ofResults rs⟩]) system (some (apiTools.getD [])) (some "auto")],
                   tr.starts ++ [rc], tr.batchResults ++ [rs]⟩
              simp only [List.length_append, List.length_cons, List.length_nil] at hih ⊢
              omega
      · simp only [Bool.not_eq_true] at hg
        simp only [seqLoop, hg, Bool.false_eq_true, if_false]
        have := (finishPhase_calls g client system ms cur rc tr).2
        omega

/-- Every batch-start record produced by the loop either was already in the
trace or carries a round-counter value between the current counter and the
configured maximum (exclusive); and at most `max_tool_rounds - round_count`
new batches can start. -/
theorem seqLoop_starts (g : AIGenerator) (client : Client)
    (tmgr : Option ToolManager) (system : String) (apiTools : Option (List ToolDef))
    (fuel : Nat) (ms : List Message) (cur : ModelResponse) (rc : Nat) (tr : Trace) :
    (∀ v ∈ ((seqLoop g client tmgr system apiTools fuel ms cur rc tr).2).starts,
        v ∈ tr.starts ∨ (rc ≤ v ∧ v < g.max_tool_rounds)) ∧
    ((seqLoop g client tmgr system apiTools fuel ms cur rc tr).2).starts.length ≤
      tr.starts.length + (g.max_tool_rounds - rc) := by
  induction fuel generalizing ms cur rc tr with
  | zero =>
    simp only [seqLoop]
    have h := (finishPhase_starts g client system ms cur rc tr).1
    rw [h]
    exact ⟨fun v hv => Or.inl hv, by omega⟩
  | succ n ih =>
    cases tmgr with
    | none =>
      simp only [seqLoop]
      have h := (finishPhase_starts g client system ms cur rc tr).1
      rw [h]
      exact ⟨fun v hv => Or.inl hv, by omega⟩
    | some tm =>
      by_cases hg : (cur.stop_reason == "tool_use" && decide (rc < g.max_tool_rounds) : Bool)
      · have hrc : rc < g.max_tool_rounds := by
          have h2 := (Bool.and_eq_true _ _).mp hg
          exact of_decide_eq_true h2.2
        simp only [seqLoop, hg, if_true]
        cases hex : _execute_tool_round cur tm with
        | error e =>
          constructor
          · intro v hv
            simp only [List.mem_append, List.mem_singleton] at hv
            rcases hv with hv | hv
            · exact Or.inl hv
            · exact Or.inr ⟨by omega, by omega⟩
          · simp only [List.length_append, List.length_singleton]
            omega
        | ok rs =>
          by_cases hre : rs.isEmpty
          · simp only [hre, if_true]
            constructor
            · intro v hv
              simp only [List.mem_append, List.mem_singleton] at hv
              rcases hv with hv | hv
              · exact Or.inl hv
              · exact Or.inr ⟨by omega, by omega⟩
            · simp only [List.length_append, List.length_singleton]
              omega
          · simp only [hre, Bool.false_eq_true, if_false]
            cases hc : client tr.calls.length with
            | error e =>
              constructor
              · intro v hv
                simp only [List.mem_append, List.mem_singleton] at hv
                rcases hv with hv | hv
                · exact Or.inl hv
                · exact Or.inr ⟨by omega, by omega⟩
              · simp only [List.length_append, List.length_singleton]
                omega
            | ok resp =>
              have hih := ih (ms ++ [⟨"assistant", .ofBlocks cur.content⟩] ++
                  [⟨"user", .ofResults rs⟩]) resp (rc + 1)
                  ⟨tr.calls ++ [mkCall g (ms ++ [⟨"assistant", .ofBlocks cur.content⟩] ++
                    [⟨"user", .ofResults rs⟩]) system (some (apiTools.getD [])) (some "auto")],
                   tr.starts ++ [rc], tr.batchResults ++ [rs]⟩
              constructor
              · intro v hv
                rcases hih.1 v hv with hv2 | hv2
                · simp only [List.mem_append, List.mem_singleton] at hv2
                  rcases hv2 with hv2 | hv2
                  · exact Or.inl hv2
                  · exact Or.inr ⟨by omega, by omega⟩
                · exact Or.inr ⟨by omega, hv2.2⟩
              · have hlen := hih.2
                simp only [List.length_append, List.length_singleton] at hlen ⊢
                omega
      · simp only [Bool.not_eq_true] at hg
        simp only [seqLoop, hg, Bool.false_eq_true, if_false]
        have h := (finishPhase_starts g client system ms cur rc tr).1
        rw [h]
        exact ⟨fun v hv => Or.inl hv, by omega⟩

/-- If every response the stub client returns has only blocks carrying a
`type` attribute, and the current response does too, then the loop never
lets an exception escape: it always returns a string. -/
theorem seqLoop_no_raise (g : AIGenerator) (client : Client) (tm : ToolManager)
    (system : String) (apiTools : Option (List ToolDef))
    (fuel : Nat) (ms : List Message) (cur : ModelResponse) (rc : Nat) (tr : Trace)
    (hcur : ∀ b ∈ cur.content, (b.type?).isSome)
    (hcli : ∀ n r, client n = .ok r → ∀ b ∈ r.content, (b.type?).isSome) :
    ∃ s, (seqLoop g client (some tm) system apiTools fuel ms cur rc tr).1 = .ok s := by
  induction fuel generalizing ms cur rc tr with
  | zero =>
    simp only [seqLoop]
    exact finishPhase_no_raise g client system ms cur rc tr
  | succ n ih =>
    by_cases hg : (cur.stop_reason == "tool_use" && decide (rc < g.max_tool_rounds) : Bool)
    · simp only [seqLoop, hg, if_true]
      rw [execute_tool_round_total cur tm hcur]
      by_cases hre : ((toolUses cur.content).map (resultFor tm)).isEmpty
      · simp only [hre, if_true]
        exact ⟨toolFailMsg, rfl⟩
      · simp only [hre, Bool.false_eq_true, if_false]
        cases hc : client tr.calls.length with
        | error e => exact ⟨roundErrorMsg (rc + 1) e, rfl⟩
        | ok resp => exact ih _ resp _ _ (hcli _ resp hc)
    · simp only [Bool.not_eq_true] at hg
      simp only [seqLoop, hg, Bool.false_eq_true, if_false]
      exact finishPhase_no_raise g client system ms cur rc tr

theorem alignedPair_nonresults (m1 m2 : Message) (h : isResultsTurn m2 = false) :
    alignedPair m1 m2 = true := by
  cases hm : m2.content with
  | ofResults rs => simp [isResultsTurn, hm] at h
  | ofString s => simp [alignedPair, hm]
  | ofBlocks bs => simp [alignedPair, hm]

theorem alignedMsgs_single (m : Message) (h : isResultsTurn m = false) :
    AlignedMsgs [m] := by
  refine ⟨fun h0 => h, List.chain'_singleton m⟩

theorem alignedMsgs_append_single (ms : List Message) (m : Message)
    (h : AlignedMsgs ms) (hm : isResultsTurn m = false) :
    AlignedMsgs (ms ++ [m]) := by
  obtain ⟨h0, hc⟩ := h
  constructor
  · intro hlen
    cases ms with
    | nil => simpa using hm
    | cons a l => simpa using h0 (by simp)
  · refine List.Chain'.append hc (List.chain'_singleton m) ?_
    intro x hx y hy
    simp only [List.head?_cons, Option.mem_def, Option.some.injEq] at hy
    subst hy
    exact alignedPair_nonresults x m hm

theorem alignedMsgs_append_round (ms : List Message) (bs : List ContentBlock)
    (rs : List ToolResult) (h : AlignedMsgs ms) (hid : resultIds rs = requestIds bs) :
    AlignedMsgs (ms ++ [⟨"assistant", .ofBlocks bs⟩, ⟨"user", .ofResults rs⟩]) := by
  obtain ⟨h0, hc⟩ := h
  constructor
  · intro hlen
    cases ms with
    | nil => simp [isResultsTurn]
    | cons a l => simpa using h0 (by simp)
  · refine List.Chain'.append hc ?_ ?_
    · refine List.chain'_pair.mpr ?_
      simp [alignedPair, hid]
    · intro x hx y hy
      simp only [List.head?_cons, Option.mem_def, Option.some.injEq] at hy
      subst hy
      exact alignedPair_nonresults x _ (by simp [isResultsTurn])

theorem finishPhase_aligned (g : AIGenerator) (client : Client) (system : String)
    (ms : List Message) (cur : ModelResponse) (rc : Nat) (tr : Trace)
    (hms : AlignedMsgs ms) (htr : ∀ c ∈ tr.calls, AlignedMsgs c.messages) :
    ∀ c ∈ ((finishPhase g client system ms cur rc tr).2).calls, AlignedMsgs c.messages := by
  unfold finishPhase
  by_cases h : (cur.stop_reason == "tool_use" && g.max_tool_rounds ≤ rc : Bool)
  · simp only [h, if_true]
    have hfin : AlignedMsgs (ms ++ [⟨"user", .ofString finalSynthesisPrompt⟩]) :=
      alignedMsgs_append_single ms _ hms (by simp [isResultsTurn])
    cases client tr.calls.length with
    | error e =>
      intro c hc
      simp only [List.mem_append, List.mem_singleton] at hc
      rcases hc with hc | hc
      · exact htr c hc
      · subst hc; exact hfin
    | ok resp =>
      intro c hc
      simp only [List.mem_append, List.mem_singleton] at hc
      rcases hc with hc | hc
      · exact htr c hc
      · subst hc; exact hfin
  · simp only [Bool.not_eq_true] at h
    simp only [h, Bool.false_eq_true, if_false]
    exact htr

theorem seqLoop_aligned (g : AIGenerator) (client : Client)
    (tmgr : Option ToolManager) (system : String) (apiTools : Option (List ToolDef))
    (fuel : Nat) (ms : List Message) (cur : ModelResponse) (rc : Nat) (tr : Trace)
    (hms : AlignedMsgs ms) (htr : ∀ c ∈ tr.calls, AlignedMsgs c.messages) :
    ∀ c ∈ ((seqLoop g client tmgr system apiTools fuel ms cur rc tr).2).calls,
      AlignedMsgs c.messages := by
  induction fuel generalizing ms cur rc tr with
  | zero =>
    simp only [seqLoop]
    exact finishPhase_aligned g client system ms cur rc tr hms htr
  | succ n ih =>
    cases tmgr with
    | none =>
      simp only [seqLoop]
      exact finishPhase_aligned g client system ms cur rc tr hms htr
    | some tm =>
      by_cases hg : (cur.stop_reason == "tool_use" && decide (rc < g.max_tool_rounds) : Bool)
      · simp only [seqLoop, hg, if_true]
        cases hex : _execute_tool_round cur tm with
        | error e => exact htr
        | ok rs =>
          have hrs : rs = (toolUses cur.content).map (resultFor tm) :=
            execute_tool_round_ok cur tm rs hex
          have hid : resultIds rs = requestIds cur.content := by
            rw [hrs]; exact resultIds_map_resultFor tm cur.content
          have hmsg2 : AlignedMsgs ((ms ++ [⟨"assistant", .ofBlocks cur.content⟩]) ++
              [⟨"user", .ofResults rs⟩]) := by
            have := alignedMsgs_append_round ms cur.content rs hms hid
            simpa [List.append_assoc] using this
          by_cases hre : rs.isEmpty
          · simp only [hre, if_true]
            exact htr
          · simp only [hre, Bool.false_eq_true, if_false]
            cases hc : client tr.calls.length with
            | error e =>
              intro c hc2
              simp only [List.mem_append, List.mem_singleton] at hc2
              rcases hc2 with hc2 | hc2
              · exact htr c hc2
              · subst hc2
                exact hmsg2
            | ok resp =>
              refine ih _ resp _ _ hmsg2 ?_
              intro c hc2
              simp only [List.mem_append, List.mem_singleton] at hc2
              rcases hc2 with hc2 | hc2
              · exact htr c hc2
              · subst hc2
                exact hmsg2
      · simp only [Bool.not_eq_true] at hg
        simp only [seqLoop, hg, Bool.false_eq_true, if_false]
        exact finishPhase_aligned g client system ms cur rc tr hms htr

theorem aligned_correspond_aux (j : Nat) :
    ∀ (ms : List Message), List.Chain' (fun a b => alignedPair a b = true) ms →
    ∀ (hj : j + 1 < ms.length) (rs : List ToolResult),
      (ms.get ⟨j + 1, hj⟩).content = .ofResults rs →
      (ms.get ⟨j + 1, hj⟩).role = "user" ∧
      ∃ bs : List ContentBlock,
        ms.get ⟨j, by omega⟩ = ⟨"assistant", .ofBlocks bs⟩ ∧
        resultIds rs = requestIds bs := by
  induction j with
  | zero =>
    intro ms hc hj rs hrs
    match ms, hj with
    | m1 :: m2 :: rest, _ =>
      have hpair : alignedPair m1 m2 = true := (List.chain'_cons.mp hc).1
      obtain ⟨role2, c2⟩ := m2
      simp only [List.get] at hrs ⊢
      subst hrs
      simp only [alignedPair] at hpair
      obtain ⟨hroles, hmatch⟩ := (Bool.and_eq_true _ _).mp hpair
      obtain ⟨hrole2, hrole1⟩ := (Bool.and_eq_true _ _).mp hroles
      refine ⟨by simpa using hrole2, ?_⟩
      obtain ⟨role1, c1⟩ := m1
      cases c1 with
      | ofBlocks bs =>
        refine ⟨bs, ?_, by simpa using hmatch⟩
        have : role1 = "assistant" := by simpa using hrole1
        rw [this]
      | ofString s => simp at hmatch
      | ofResults rs2 => simp at hmatch
  | succ k ih =>
    intro ms hc hj rs hrs
    cases ms with
    | nil => simp at hj
    | cons m1 tl =>
      have htl : List.Chain' (fun a b => alignedPair a b = true) tl := hc.tail
      have hlen : k + 1 < tl.length := by
        simp only [List.length_cons] at hj
        omega
      have hres := ih tl htl hlen rs (by simpa [List.get] using hrs)
      simpa [List.get] using hres

theorem alignedMsgs_correspond (ms : List Message) (h : AlignedMsgs ms)
    (j : Nat) (hj : j < ms.length) (rs : List ToolResult)
    (hrs : (ms.get ⟨j, hj⟩).content = .ofResults rs) :
    1 ≤ j ∧ (ms.get ⟨j, hj⟩).role = "user" ∧
    ∃ (hj1 : j - 1 < ms.length) (bs : List ContentBlock),
      ms.get ⟨j - 1, hj1⟩ = ⟨"assistant", .ofBlocks bs⟩ ∧
      resultIds rs = requestIds bs := by
  obtain ⟨h0, hc⟩ := h
  cases j with
  | zero =>
    exfalso
    have h00 := h0 hj
    rw [isResultsTurn] at h00
    rw [hrs] at h00
    simp at h00
  | succ k =>
    have haux := aligned_correspond_aux k ms hc hj rs hrs
    refine ⟨by omega, haux.1, ?_⟩
    obtain ⟨bs, hbs, hid⟩ := haux.2
    refine ⟨by omega, bs, ?_, hid⟩
    simpa using hbs

theorem extractScan_some (bs : List ContentBlock) (t : String)
    (h : firstTextual bs = some t) : extractScan bs = t := by
  induction bs with
  | nil => simp [firstTextual] at h
  | cons b rest ih =>
    by_cases hb : isTextualItem b
    · have hfind : (b :: rest).find? isTextualItem = some b :=
        List.find?_cons_of_pos _ hb
      rw [firstTextual, hfind, Option.some_bind] at h
      cases htx : b.text? with
      | none => simp [isTextualItem, htx] at hb
      | some t0 =>
        rw [htx, Option.some_inj] at h
        subst h
        cases hty : b.type? with
        | some ty =>
          have hne : (ty != "tool_use") = true := by
            simpa [isTextualItem, htx, hty] using hb
          simp [extractScan, htx, hty, hne]
        | none =>
          have hne : (t0.trim != "") = true := by
            simpa [isTextualItem, htx, hty] using hb
          simp [extractScan, htx, hty, hne]
    · have hfind : (b :: rest).find? isTextualItem = rest.find? isTextualItem :=
        List.find?_cons_of_neg _ (by simpa using hb)
      rw [firstTextual, hfind] at h
      have hrest : firstTextual rest = some t := h
      cases htx : b.text? with
      | none => simp [extractScan, htx, ih hrest]
      | some t0 =>
        cases hty : b.type? with
        | some ty =>
          have heq : (ty != "tool_use") = false := by
            simpa [isTextualItem, htx, hty] using hb
          simp [extractScan, htx, hty, heq, ih hrest]
        | none =>
          have heq : (t0.trim != "") = false := by
            simpa [isTextualItem, htx, hty] using hb
          simp [extractScan, htx, hty, heq, ih hrest]

theorem extractScan_none (bs : List ContentBlock)
    (h : firstTextual bs = none) : extractScan bs = extractScanFallback := by
  induction bs with
  | nil => simp [extractScan]
  | cons b rest ih =>
    by_cases hb : isTextualItem b
    · exfalso
      have hfind : (b :: rest).find? isTextualItem = some b :=
        List.find?_cons_of_pos _ hb
      rw [firstTextual, hfind, Option.some_bind] at h
      cases htx : b.text? with
      | none => simp [isTextualItem, htx] at hb
      | some t0 => rw [htx] at h; exact Option.some_ne_none t0 h
    · have hfind : (b :: rest).find? isTextualItem = rest.find? isTextualItem :=
        List.find?_cons_of_neg _ (by simpa using hb)
      rw [firstTextual, hfind] at h
      have hrest : firstTextual rest = none := h
      cases htx : b.text? with
      | none => simp [extractScan, htx, ih hrest]
      | some t0 =>
        cases hty : b.type? with
        | some ty =>
          have heq : (ty != "tool_use") = false := by
            simpa [isTextualItem, htx, hty] using hb
          simp [extractScan, htx, hty, heq, ih hrest]
        | none =>
          have heq : (t0.trim != "") = false := by
            simpa [isTextualItem, htx, hty] using hb
          simp [extractScan, htx, hty, heq, ih hrest]

/-- C9: for every input and every stub client behavior, `generate_response`
terminates (it is a total function of this embedding; the loop is
well-founded because the round counter strictly increases toward the fixed
maximum) and makes at most `max_tool_rounds + 2` model calls in total: the
initial call, at most one call per tool round, and at most one finalization
call. -/
theorem C9_call_bound (g : AIGenerator) (client : Client) (query : String)
    (hist : Option String) (tools : Option (List ToolDef))
    (tmgr : Option ToolManager) :
    ((generate_response g client query hist tools tmgr).2).calls.length ≤
      g.max_tool_rounds + 2 := by
  unfold generate_response
  cases h0 : client 0 with
  | error e => simp
  | ok r =>
    by_cases hc : (r.stop_reason == "tool_use" && tmgr.isSome : Bool)
    · simp only [hc, if_true]
      unfold _handle_sequential_tool_execution
      refine le_trans (seqLoop_calls_le g client tmgr _ _ g.max_tool_rounds _ r 0 _) ?_
      simp only [List.length_singleton]
      omega
    · simp only [Bool.not_eq_true] at hc
      simp only [hc, Bool.false_eq_true, if_false]
      cases r.content with
      | nil => simp
      | cons b rest =>
        cases hbt : b.text? with
        | some t => simp [hbt]
        | none => simp [hbt]

/-- C1: a tool-execution batch is started only while the round counter is
strictly below the configured maximum (each entry of `Trace.starts` is the
counter value at a batch start, recorded before the increment), at most
`max_tool_rounds` batches ever start, and in particular with
`max_tool_rounds = 1` at most one batch occurs. -/
theorem C1_round_counter_cap (g : AIGenerator) (client : Client) (query : String)
    (hist : Option String) (tools : Option (List ToolDef))
    (tmgr : Option ToolManager) :
    (∀ v ∈ ((generate_response g client query hist tools tmgr).2).starts,
        v < g.max_tool_rounds) ∧
    ((generate_response g client query hist tools tmgr).2).starts.length ≤
      g.max_tool_rounds ∧
    (g.max_tool_rounds = 1 →
      ((generate_response g client query hist tools tmgr).2).starts.length ≤ 1) := by
  have hmain :
      (∀ v ∈ ((generate_response g client query hist tools tmgr).2).starts,
          v < g.max_tool_rounds) ∧
      ((generate_response g client query hist tools tmgr).2).starts.length ≤
        g.max_tool_rounds := by
    unfold generate_response
    cases h0 : client 0 with
    | error e => simp
    | ok r =>
      by_cases hc : (r.stop_reason == "tool_use" && tmgr.isSome : Bool)
      · simp only [hc, if_true]
        unfold _handle_sequential_tool_execution
        constructor
        · intro v hv
          rcases (seqLoop_starts g client tmgr _ _ g.max_tool_rounds _ r 0 _).1 v hv
            with hv2 | hv2
          · simp at hv2
          · exact hv2.2
        · refine le_trans (seqLoop_starts g client tmgr _ _ g.max_tool_rounds _ r 0 _).2 ?_
          simp only [List.length_nil]
          omega
      · simp only [Bool.not_eq_true] at hc
        simp only [hc, Bool.false_eq_true, if_false]
        cases r.content with
        | nil => simp
        | cons b rest =>
          cases hbt : b.text? with
          | some t => simp [hbt]
          | none => simp [hbt]
  exact ⟨hmain.1, hmain.2, fun h1 => by rw [h1] at hmain; exact hmain.2⟩

/-- C10: with `tool_manager = None` no tool is ever executed, even when the
stop reason is `tool_use`: the engine takes the direct-return path, which
yields the `text` attribute of the first content block when that attribute
exists, raises `AttributeError` when it does not (a tool-invocation block
in first position falls outside the domain of the read), and falls back to
the fixed string on empty content. -/
theorem C10_no_tool_manager (g : AIGenerator) (client : Client) (query : String)
    (hist : Option String) (tools : Option (List ToolDef)) (r0 : ModelResponse)
    (h0 : client 0 = .ok r0) :
    ((generate_response g client query hist tools none).2).starts = [] ∧
    ((generate_response g client query hist tools none).2).batchResults = [] ∧
    (∀ b bs, r0.content = b :: bs →
      (∀ t, b.text? = some t →
        (generate_response g client query hist tools none).1 = .ok t) ∧
      (b.text? = none →
        (generate_response g client query hist tools none).1 =
          .error "AttributeError: text")) ∧
    (r0.content = [] →
      (generate_response g client query hist tools none).1 = .ok noResponseFallback) := by
  unfold generate_response
  rw [h0]
  simp only [Option.isSome_none, Bool.and_false, Bool.false_eq_true, if_false]
  refine ⟨?_, ?_, ?_, ?_⟩
  · cases hcon : r0.content with
    | nil => simp
    | cons b bs => cases hbt : b.text? <;> simp [hbt]
  · cases hcon : r0.content with
    | nil => simp
    | cons b bs => cases hbt : b.text? <;> simp [hbt]
  · intro b bs hcon
    rw [hcon]
    constructor
    · intro t ht
      simp [ht]
    · intro ht
      simp [ht]
  · intro hcon
    rw [hcon]

/-- C2: if the tool loop exits with the round counter at the configured
maximum while the latest response still requests tools, the engine appends
exactly one more user turn (the fixed synthesis instruction) and issues
exactly one further model call whose parameters contain no tool definitions
(the `tools` key is absent: `tools = none`) and no `tool_choice`; the text
extracted from that call's response — or, when the call raises, the
formatted error string — is the engine's output. -/
theorem C2_finalization_no_tools (g : AIGenerator) (client : Client)
    (tmgr : Option ToolManager) (system : String) (apiTools : Option (List ToolDef))
    (fuel : Nat) (ms : List Message) (cur : ModelResponse) (rc : Nat) (tr : Trace)
    (h1 : cur.stop_reason = "tool_use") (h2 : g.max_tool_rounds ≤ rc) :
    seqLoop g client tmgr system apiTools fuel ms cur rc tr =
      ((match client tr.calls.length with
        | .error e => .ok (finalErrorMsg e)
        | .ok resp => .ok (_extract_response_text resp)),
       ⟨tr.calls ++
          [mkCall g (ms ++ [⟨"user", .ofString finalSynthesisPrompt⟩]) system none none],
        tr.starts, tr.batchResults⟩) := by
  have hb : (cur.stop_reason == "tool_use") = true := by simp [h1]
  have hrc : (decide (rc < g.max_tool_rounds)) = false := by
    simp only [decide_eq_false_iff_not, not_lt]
    omega
  have hloop : seqLoop g client tmgr system apiTools fuel ms cur rc tr =
      finishPhase g client system ms cur rc tr := by
    cases fuel with
    | zero => simp [seqLoop]
    | succ n =>
      cases tmgr with
      | none => simp [seqLoop]
      | some tm => simp [seqLoop, hb, hrc]
  rw [hloop]
  unfold finishPhase
  have hcond : (cur.stop_reason == "tool_use" && decide (g.max_tool_rounds ≤ rc)) = true := by
    simp [h1, h2]
  rw [hcond]
  simp only [if_true]
  cases client tr.calls.length <;> rfl

/-- C4: whenever a tool-execution batch produces zero results for a
response whose stop reason is `tool_use`, the engine aborts the whole
invocation at once with exactly the fixed failure string, and the trace of
model calls is unchanged: no further model call is made. -/
theorem C4_empty_batch_abort (g : AIGenerator) (client : Client) (tm : ToolManager)
    (system : String) (apiTools : Option (List ToolDef)) (fuel : Nat)
    (ms : List Message) (cur : ModelResponse) (rc : Nat) (tr : Trace)
    (h1 : cur.stop_reason = "tool_use") (h2 : rc < g.max_tool_rounds)
    (hf : g.max_tool_rounds ≤ fuel + rc)
    (hexec : _execute_tool_round cur tm = .ok []) :
    seqLoop g client (some tm) system apiTools fuel ms cur rc tr =
      (.ok toolFailMsg, ⟨tr.calls, tr.starts ++ [rc], tr.batchResults ++ [[]]⟩) := by
  cases fuel with
  | zero => omega
  | succ n =>
    have hb : (cur.stop_reason == "tool_use") = true := by simp [h1]
    have hrc : (decide (rc < g.max_tool_rounds)) = true := by simp [h2]
    simp [seqLoop, hb, hrc, hexec]

/-- C3, counterexample: the initial model call of `generate_response` is
not guarded by try/except in the source, so a client that raises on the
first call makes `generate_response` raise (the embedded outcome is
`.error`, i.e. an uncaught exception), refuting the claim that it returns
a string for every client behavior. -/
theorem C3_raises_on_initial_call :
    (generate_response sampleGen clientRaisesFirst "hello" none none none).1 =
      .error "network down" := rfl

/-- C3, amended: exceptions raised by the client during tool rounds and
finalization, and by the tool manager, are caught and surfaced as strings;
`generate_response` returns a string whenever the initial model call
succeeds, every returned content block carries a `type` attribute, and, on
the direct no-tool path, the first content block (if any) carries a `text`
attribute. -/
theorem C3_errors_as_strings (g : AIGenerator) (client : Client) (query : String)
    (hist : Option String) (tools : Option (List ToolDef)) (tmgr : Option ToolManager)
    (r0 : ModelResponse) (h0 : client 0 = .ok r0)
    (hty : ∀ n r, client n = .ok r → ∀ b ∈ r.content, (b.type?).isSome)
    (hdirect : (r0.stop_reason == "tool_use" && tmgr.isSome) = false →
      ∀ b ∈ r0.content.head?, (b.text?).isSome) :
    ∃ s, (generate_response g client query hist tools tmgr).1 = .ok s := by
  unfold generate_response
  rw [h0]
  cases tmgr with
  | some tm =>
    by_cases hc : (r0.stop_reason == "tool_use" && (some tm : Option ToolManager).isSome : Bool)
    · simp only [hc, if_true]
      unfold _handle_sequential_tool_execution
      exact seqLoop_no_raise g client tm _ _ g.max_tool_rounds _ r0 0 _
        (hty 0 r0 h0) hty
    · simp only [Bool.not_eq_true] at hc
      simp only [hc, Bool.false_eq_true, if_false]
      cases hcon : r0.content with
      | nil => exact ⟨noResponseFallback, rfl⟩
      | cons b bs =>
        have hb := hdirect hc b (by simp [hcon])
        obtain ⟨t, ht⟩ := Option.isSome_iff_exists.mp hb
        exact ⟨t, by simp [ht]⟩
  | none =>
    have hc : (r0.stop_reason == "tool_use" && (none : Option ToolManager).isSome) = false := by
      simp
    simp only [hc, Bool.false_eq_true, if_false]
    cases hcon : r0.content with
    | nil => exact ⟨noResponseFallback, rfl⟩
    | cons b bs =>
      have hb := hdirect hc b (by simp [hcon])
      obtain ⟨t, ht⟩ := Option.isSome_iff_exists.mp hb
      exact ⟨t, by simp [ht]⟩

/-- C7: when a response contains no tool-invocation requests, the final
extraction path returns the text of its first genuine textual content item;
when there is none it returns one of two fixed fallback strings (one for
non-empty content without text, one for empty content), each of which is
distinct from the fallback `"No response generated"` used by the direct
no-tool path of `generate_response`. -/
theorem C7_first_textual_extraction (r : ModelResponse) :
    (∀ t, firstTextual r.content = some t → _extract_response_text r = t) ∧
    (firstTextual r.content = none →
      _extract_response_text r = extractScanFallback ∨
      _extract_response_text r = extractEmptyFallback) ∧
    extractScanFallback ≠ noResponseFallback ∧
    extractEmptyFallback ≠ noResponseFallback := by
  refine ⟨?_, ?_, ?_, ?_⟩
  · intro t ht
    cases hcon : r.content with
    | nil => rw [hcon] at ht; simp [firstTextual] at ht
    | cons b bs =>
      have hne : r.content.isEmpty = false := by simp [hcon]
      rw [_extract_response_text, hne]
      simp only [Bool.false_eq_true, if_false]
      exact extractScan_some r.content t ht
  · intro ht
    by_cases hcon : r.content.isEmpty
    · right
      simp [_extract_response_text, hcon]
    · left
      have hcon2 : r.content.isEmpty = false := by simpa using hcon
      rw [_extract_response_text, hcon2]
      simp only [Bool.false_eq_true, if_false]
      exact extractScan_none r.content ht
  · decide
  · decide

/-- C5: executing a batch of N tool-invocation requests, where the manager
may raise on some invocations: every invocation still runs, a raising one
yields an `is_error` result with the diagnostic string, the batch has
exactly N entries in request order with each call id copied from its
request, and the round proceeds — the loop records the batch and issues a
further model call instead of aborting. -/
theorem C5_tool_fault_isolated (g : AIGenerator) (client : Client) (tm : ToolManager)
    (system : String) (apiTools : Option (List ToolDef)) (fuel : Nat)
    (ms : List Message) (cur : ModelResponse) (rc : Nat) (tr : Trace)
    (h1 : cur.stop_reason = "tool_use") (h2 : rc < g.max_tool_rounds)
    (hf : g.max_tool_rounds ≤ fuel + rc)
    (hty : ∀ x ∈ cur.content, (x.type?).isSome)
    (hne : toolUses cur.content ≠ []) :
    ∃ rs, _execute_tool_round cur tm = .ok rs ∧
      rs.length = (toolUses cur.content).length ∧
      (∀ i (hi : i < (toolUses cur.content).length) (hi2 : i < rs.length),
        (∀ e, tm ((toolUses cur.content).get ⟨i, hi⟩).name
              ((toolUses cur.content).get ⟨i, hi⟩).input = .error e →
          rs.get ⟨i, hi2⟩ =
            ⟨((toolUses cur.content).get ⟨i, hi⟩).id, "Tool execution error: " ++ e, true⟩) ∧
        (∀ v, tm ((toolUses cur.content).get ⟨i, hi⟩).name
              ((toolUses cur.content).get ⟨i, hi⟩).input = .ok v →
          rs.get ⟨i, hi2⟩ = ⟨((toolUses cur.content).get ⟨i, hi⟩).id, v, false⟩)) ∧
      tr.calls.length + 1 ≤
        ((seqLoop g client (some tm) system apiTools fuel ms cur rc tr).2).calls.length := by
  refine ⟨(toolUses cur.content).map (resultFor tm),
    execute_tool_round_total cur tm hty, by simp, ?_, ?_⟩
  · intro i hi hi2
    have hget : ((toolUses cur.content).map (resultFor tm)).get ⟨i, hi2⟩ =
        resultFor tm ((toolUses cur.content).get ⟨i, hi⟩) := by
      simp [List.get_eq_getElem, List.getElem_map]
    constructor
    · intro e he
      rw [hget, resultFor, he]
    · intro v hv
      rw [hget, resultFor, hv]
  · cases fuel with
    | zero => omega
    | succ n =>
      have hb : (cur.stop_reason == "tool_use") = true := by simp [h1]
      have hrc : (decide (rc < g.max_tool_rounds)) = true := by simp [h2]
      simp only [seqLoop, hb, hrc, Bool.and_self, if_true]
      rw [execute_tool_round_total cur tm hty]
      have hre : ((toolUses cur.content).map (resultFor tm)).isEmpty = false := by
        cases hcon : toolUses cur.content with
        | nil => exact absurd hcon hne
        | cons x xs => simp [hcon]
      simp only [hre, Bool.false_eq_true, if_false]
      cases hc : client tr.calls.length with
      | error e => simp
      | ok resp =>
        refine le_trans ?_ (seqLoop_calls_mono g client (some tm) system apiTools n _ resp _ _)
        simp

/-- Every messages list recorded in the trace of a `generate_response` run
satisfies the alignment invariant. -/
theorem generate_response_aligned (g : AIGenerator) (client : Client) (query : String)
    (hist : Option String) (tools : Option (List ToolDef)) (tmgr : Option ToolManager) :
    ∀ c ∈ ((generate_response g client query hist tools tmgr).2).calls,
      AlignedMsgs c.messages := by
  have hsingle : AlignedMsgs ([⟨"user", MsgContent.ofString query⟩] : List Message) :=
    alignedMsgs_single _ (by simp [isResultsTurn])
  unfold generate_response
  cases h0 : client 0 with
  | error e =>
    intro c hc
    simp only [List.mem_singleton] at hc
    subst hc
    exact hsingle
  | ok r =>
    by_cases hcnd : (r.stop_reason == "tool_use" && tmgr.isSome : Bool)
    · simp only [hcnd, if_true]
      unfold _handle_sequential_tool_execution
      refine seqLoop_aligned g client tmgr _ _ g.max_tool_rounds _ r 0 _ hsingle ?_
      intro c hc
      simp only [List.mem_singleton] at hc
      subst hc
      exact hsingle
    · simp only [Bool.not_eq_true] at hcnd
      simp only [hcnd, Bool.false_eq_true, if_false]
      intro c hc
      cases hcon : r.content with
      | nil =>
        rw [hcon] at hc
        simp only [List.mem_singleton] at hc
        subst hc
        exact hsingle
      | cons b bs =>
        rw [hcon] at hc
        cases hbt : b.text? with
        | some t =>
          simp only [hbt, List.mem_singleton] at hc
          subst hc
          exact hsingle
        | none =>
          simp only [hbt, List.mem_singleton] at hc
          subst hc
          exact hsingle

/-- C6: in every model call the engine makes, any user turn bundling tool
results immediately follows an assistant turn holding the verbatim content
blocks of the tool-requesting response, the result call ids equal the
tool-use ids of those blocks in the same order, and (when the request ids
are distinct, as the API guarantees) every result id corresponds to exactly
one request of that assistant turn. -/
theorem C6_results_match_requests (g : AIGenerator) (client : Client) (query : String)
    (hist : Option String) (tools : Option (List ToolDef)) (tmgr : Option ToolManager)
    (c : ApiCall) (hc : c ∈ ((generate_response g client query hist tools tmgr).2).calls)
    (j : Nat) (hj : j < c.messages.length) (rs : List ToolResult)
    (hrs : (c.messages.get ⟨j, hj⟩).content = .ofResults rs) :
    1 ≤ j ∧ (c.messages.get ⟨j, hj⟩).role = "user" ∧
    ∃ (hj1 : j - 1 < c.messages.length) (bs : List ContentBlock),
      c.messages.get ⟨j - 1, hj1⟩ = ⟨"assistant", .ofBlocks bs⟩ ∧
      resultIds rs = requestIds bs ∧
      ((requestIds bs).Nodup →
        ∀ r ∈ rs, (requestIds bs).count r.tool_use_id = 1) := by
  have haligned : AlignedMsgs c.messages :=
    generate_response_aligned g client query hist tools tmgr c hc
  obtain ⟨hj0, hrole, hj1, bs, hbs, hid⟩ :=
    alignedMsgs_correspond c.messages haligned j hj rs hrs
  refine ⟨hj0, hrole, hj1, bs, hbs, hid, ?_⟩
  intro hnd r hr
  have hmem : r.tool_use_id ∈ requestIds bs := by
    rw [← hid]
    exact List.mem_map_of_mem (fun x => x.tool_use_id) hr
  exact List.count_eq_one_of_mem hnd hmem

/-- C8: for a run in which the first response requests exactly one tool and
the second requests no tools (natural stop), `generate_response` executes
exactly one tool invocation (one batch started at round counter 0, holding
exactly the one result of that invocation), makes exactly two model calls
in total, and returns the text of the second response. -/
theorem C8_single_round_scenario (g : AIGenerator) (client : Client) (query : String)
    (hist : Option String) (tools : Option (List ToolDef)) (tm : ToolManager)
    (r0 r1 : ModelResponse) (b : ContentBlock) (t : String)
    (h0 : client 0 = .ok r0) (hstop0 : r0.stop_reason = "tool_use")
    (hty : ∀ x ∈ r0.content, (x.type?).isSome)
    (hreq : toolUses r0.content = [b])
    (h1 : client 1 = .ok r1) (hstop1 : r1.stop_reason ≠ "tool_use")
    (ht : firstTextual r1.content = some t)
    (hmax : 1 ≤ g.max_tool_rounds) :
    (generate_response g client query hist tools (some tm)).1 = .ok t ∧
    ((generate_response g client query hist tools (some tm)).2).calls.length = 2 ∧
    ((generate_response g client query hist tools (some tm)).2).starts = [0] ∧
    ((generate_response g client query hist tools (some tm)).2).batchResults =
      [[resultFor tm b]] := by
  obtain ⟨m, hm⟩ : ∃ m, g.max_tool_rounds = m + 1 := ⟨g.max_tool_rounds - 1, by omega⟩
  have hext : _extract_response_text r1 = t := by
    cases hcon : r1.content with
    | nil => rw [hcon] at ht; simp [firstTextual] at ht
    | cons x xs =>
      have hne : r1.content.isEmpty = false := by simp [hcon]
      rw [_extract_response_text, hne]
      simp only [Bool.false_eq_true, if_false]
      exact extractScan_some r1.content t ht
  have hb : (r0.stop_reason == "tool_use") = true := by simp [hstop0]
  have hrc : (decide (0 < g.max_tool_rounds)) = true := by
    simp only [decide_eq_true_eq]
    omega
  have hcnd : (r0.stop_reason == "tool_use" && (some tm : Option ToolManager).isSome) = true := by
    simp [hstop0]
  unfold generate_response
  rw [h0]
  simp only [hcnd, if_true]
  unfold _handle_sequential_tool_execution
  rw [hm]
  simp only [seqLoop, hb, hrc, Bool.and_self, if_true]
  rw [execute_tool_round_total r0 tm hty, hreq]
  simp only [List.map_cons, List.map_nil, List.isEmpty_cons, Bool.false_eq_true, if_false]
  simp only [List.length_singleton]
  rw [h1]
  dsimp only
  rw [seqLoop_stop_ne g client (some tm) _ _ m _ r1 1 _ hstop1]
  rw [hext]
  refine ⟨rfl, by simp, by simp, by simp⟩

theorem C1_round_counter_cap_witness :
    ((generate_response sampleGen1 clientAlwaysTools "q" none (some sampleToolDefs)
        (some sampleTm)).2).starts.length ≤ 1 :=
  (C1_round_counter_cap sampleGen1 clientAlwaysTools "q" none (some sampleToolDefs)
    (some sampleTm)).2.2 rfl

theorem C2_finalization_no_tools_witness :
    seqLoop sampleGen1 clientAlwaysTools (some sampleTm) "sys" (some sampleToolDefs) 0
        [] ⟨"tool_use", [sampleToolBlock "t1" "search_course_content"]⟩ 1 ⟨[], [], []⟩ =
      (.ok extractScanFallback,
       ⟨[mkCall sampleGen1 [⟨"user", .ofString finalSynthesisPrompt⟩] "sys" none none],
        [], []⟩) :=
  C2_finalization_no_tools sampleGen1 clientAlwaysTools (some sampleTm) "sys"
    (some sampleToolDefs) 0 [] ⟨"tool_use", [sampleToolBlock "t1" "search_course_content"]⟩
    1 ⟨[], [], []⟩ rfl (by decide)

theorem C3_errors_as_strings_witness :
    ((generate_response sampleGen clientPlainText "q" none none none).1).isOk = true := by
  obtain ⟨s, hs⟩ := C3_errors_as_strings sampleGen clientPlainText "q" none none none
    ⟨"end_turn", [sampleTextBlock "direct answer"]⟩ rfl
    (fun n r h => by
      injection h with h2
      subst h2
      decide)
    (fun h b hb => by
      simp only [List.head?_cons, Option.mem_def, Option.some.injEq] at hb
      subst hb
      decide)
  rw [hs]
  rfl

theorem C4_empty_batch_abort_witness :
    seqLoop sampleGen1 clientEmptyBatch (some sampleTm) "sys" none 1 []
        ⟨"tool_use", [sampleTextBlock "no requests"]⟩ 0 ⟨[], [], []⟩ =
      (.ok toolFailMsg, ⟨[], [0], [[]]⟩) :=
  C4_empty_batch_abort sampleGen1 clientEmptyBatch sampleTm "sys" none 1 []
    ⟨"tool_use", [sampleTextBlock "no requests"]⟩ 0 ⟨[], [], []⟩ rfl (by decide)
    (by decide) rfl

theorem C5_tool_fault_isolated_witness :
    0 + 1 ≤
      ((seqLoop sampleGen1 clientTwoToolsOneBad (some sampleTmFaulty) "sys" none 1 []
          ⟨"tool_use", [sampleToolBlock "t1" "bad", sampleToolBlock "t2" "good"]⟩ 0
          ⟨[], [], []⟩).2).calls.length :=
  (C5_tool_fault_isolated sampleGen1 clientTwoToolsOneBad sampleTmFaulty "sys" none 1 []
    ⟨"tool_use", [sampleToolBlock "t1" "bad", sampleToolBlock "t2" "good"]⟩ 0 ⟨[], [], []⟩
    rfl (by decide) (by decide) (by decide) (by decide)).elim
    (fun rs h2 => h2.2.2.2)

theorem C6_results_match_requests_witness :
    1 ≤ 2 ∧ (sampleSecondCall.messages.get ⟨2, by decide⟩).role = "user" := by
  have hlen : 1 <
      ((generate_response sampleGen clientOneRound "q" none (some sampleToolDefs)
        (some sampleTm)).2).calls.length := by decide
  have hmem : sampleSecondCall ∈
      ((generate_response sampleGen clientOneRound "q" none (some sampleToolDefs)
        (some sampleTm)).2).calls := by
    unfold sampleSecondCall
    rw [List.getD_eq_getElem _ _ hlen]
    exact List.getElem_mem hlen
  obtain ⟨ha, hb, -⟩ := C6_results_match_requests sampleGen clientOneRound "q" none
    (some sampleToolDefs) (some sampleTm) sampleSecondCall hmem 2 (by decide)
    [⟨"t1", "tool output", false⟩] rfl
  exact ⟨ha, hb⟩

theorem C7_first_textual_extraction_witness :
    _extract_response_text ⟨"end_turn", [sampleTextBlock "hi"]⟩ = "hi" :=
  (C7_first_textual_extraction ⟨"end_turn", [sampleTextBlock "hi"]⟩).1 "hi" rfl

theorem C8_single_round_scenario_witness :
    (generate_response sampleGen clientOneRound "q" none (some sampleToolDefs)
        (some sampleTm)).1 = .ok "final answer" ∧
    ((generate_response sampleGen clientOneRound "q" none (some sampleToolDefs)
        (some sampleTm)).2).calls.length = 2 ∧
    ((generate_response sampleGen clientOneRound "q" none (some sampleToolDefs)
        (some sampleTm)).2).starts = [0] ∧
    ((generate_response sampleGen clientOneRound "q" none (some sampleToolDefs)
        (some sampleTm)).2).batchResults =
      [[resultFor sampleTm (sampleToolBlock "t1" "search_course_content")]] :=
  C8_single_round_scenario sampleGen clientOneRound "q" none (some sampleToolDefs) sampleTm
    ⟨"tool_use", [sampleToolBlock "t1" "search_course_content"]⟩
    ⟨"end_turn", [sampleTextBlock "final answer"]⟩
    (sampleToolBlock "t1" "search_course_content") "final answer"
    rfl rfl (by decide) rfl rfl (by decide) rfl (by decide)

theorem C10_no_tool_manager_witness :
    ((generate_response sampleGen clientToolUseDirect "q" none none none).2).starts = [] ∧
    (generate_response sampleGen clientToolUseDirect "q" none none none).1 =
      .error "AttributeError: text" := by
  have h := C10_no_tool_manager sampleGen clientToolUseDirect "q" none none
    ⟨"tool_use", [sampleToolBlock "t1" "s"]⟩ rfl
  exact ⟨h.1, (h.2.2.1 (sampleToolBlock "t1" "s") [] rfl).2 rfl⟩

end AIGen
